import Mathlib

/-!
Shallow embedding of `app.py` (PEGY Stock Screener) and verification of its
specification.

Modelling conventions:
* Python `str` values are embedded as `List Char` (`PyStr`); the handful of
  string primitives the program uses (`replace("\n", ",")`, `split(",")`,
  `strip()`, `upper()`, lexicographic comparison) are defined below with
  Python's semantics, so that they evaluate inside the kernel.
* Python floats / pandas numeric cells are embedded as `ℚ`; a pandas `NaN`
  (absent value) is `none` in `Option ℚ`.  The program never relies on float
  rounding behaviour except in the display-rounding step, which is modelled
  with exact rational rounding.
* The yfinance provider is an external collaborator: `batch_fetch` is
  parameterised by a function `PyStr → FetchOutcome` giving, per ticker,
  either the provider's key-value bag (plus the analyst-estimates table) or a
  raised exception's message.
* A pandas `DataFrame` built from a list of per-row dicts is embedded as a
  `List FetchRow` together with total column accessors (a key missing from a
  row's dict reads as `NaN`, i.e. `none`), and, for the CSV export, the
  pandas column-ordering rule (keys in first-seen order).
-/

namespace PegyApp

/-! ### Python string primitives -/

/-- Embedding of a Python `str` as its list of characters. -/
abbrev PyStr := List Char

/-- Python `txt.replace("\n", ",")` for the single-character pattern used by
the program: every newline character becomes a comma. -/
def pyReplaceNlComma (s : PyStr) : PyStr :=
  s.map (fun c => if c = '\n' then ',' else c)

/-- Python `s.split(",")`: split on every comma; `"".split(",") == [""]`. -/
def splitComma : PyStr → List PyStr
  | [] => [[]]
  | c :: rest =>
    match splitComma rest with
    | [] => [[]]
    | t :: ts => if c = ',' then [] :: t :: ts else (c :: t) :: ts

/-- The ASCII whitespace characters stripped by Python `str.strip()`. -/
def isPySpace (c : Char) : Bool :=
  c = ' ' || c = '\t' || c = '\n' || c = '\r' || c = '\x0b' || c = '\x0c'

/-- Python `s.strip()`: drop leading and trailing whitespace. -/
def pyStrip (s : PyStr) : PyStr :=
  ((s.dropWhile isPySpace).reverse.dropWhile isPySpace).reverse

/-- Python `s.upper()` (the program only feeds it ASCII ticker text). -/
def pyUpper (s : PyStr) : PyStr := s.map Char.toUpper

/-- Lexicographic strict comparison of strings by code point, as used by
pandas when sorting an object column of Python strings. -/
def strLt : PyStr → PyStr → Bool
  | [], [] => false
  | [], _ :: _ => true
  | _ :: _, [] => false
  | a :: as, b :: bs => if a < b then true else if b < a then false else strLt as bs

/-- Nonstrict string comparison. -/
def strLe (a b : PyStr) : Bool := !(strLt b a)

/-! ### Ticker parser (`parse_tickers`, app.py lines 56-58) -/

/-- `parse_tickers`: replace newlines by commas, split on commas, strip and
upper-case every token, keep the non-empty (truthy) tokens. -/
def parse_tickers (txt : PyStr) : List PyStr :=
  ((splitComma (pyReplaceNlComma txt)).map (fun x => pyUpper (pyStrip x))).filter
    (fun t => !t.isEmpty)

/-! ### Fundamentals fetcher (`fetch_summary`, app.py lines 62-98) -/

/-- The provider's key-value bag (`t.info`) restricted to the keys the
program reads.  `none` means the key is missing (or the provider returned
`None`; both read back as an absent value through `info.get`). -/
structure Info where
  trailingPE : Option ℚ
  forwardPE : Option ℚ
  dividendYield : Option ℚ
  shortName : Option PyStr
  longName : Option PyStr
  currentPrice : Option ℚ
  regularMarketPrice : Option ℚ
  sector : Option PyStr
deriving DecidableEq

/-- The provider's analyst-estimates table (`t.analysis`): the `"+5y"`
column may be missing, and its entries may individually be `NaN`. -/
structure AnalysisTbl where
  plus5y : Option (List (Option ℚ))
deriving DecidableEq

/-- Python `a or b` for optional numbers: `None` and `0` are falsy, any
other number is truthy. -/
def pyOrQ (a b : Option ℚ) : Option ℚ :=
  match a with
  | some x => if x = 0 then b else some x
  | none => b

/-- Python `a or b` for an optional string with a string fallback: `None`
and the empty string are falsy. -/
def pyOrS (a : Option PyStr) (b : PyStr) : PyStr :=
  match a with
  | some s => if s.isEmpty then b else s
  | none => b

/-- The record built by `fetch_summary` for one ticker (the per-row dict of
app.py lines 89-98). -/
structure FundRec where
  ticker : PyStr
  name : PyStr
  price : Option ℚ
  sector : PyStr
  trailingPE : Option ℚ
  forwardPE : Option ℚ
  dividendPct : ℚ
  analystGrowthPct : Option ℚ
deriving DecidableEq

/-- `fetch_summary` on a provider response.  The `analysis` argument is
`none` when `t.analysis` raised or was `None`; the try/except around the
growth sub-query is folded into the `match` (any failure degrades to an
absent growth value). -/
def fetch_summary (ticker : PyStr) (info : Info) (analysis : Option AnalysisTbl) :
    FundRec :=
  { ticker := ticker
    name := pyOrS info.shortName (pyOrS info.longName ticker)
    price := pyOrQ info.currentPrice (pyOrQ info.regularMarketPrice none)
    sector := pyOrS info.sector []
    trailingPE := info.trailingPE
    forwardPE := info.forwardPE
    dividendPct := info.dividendYield.getD 0 * 100
    analystGrowthPct :=
      match analysis with
      | none => none
      | some tbl =>
        match tbl.plus5y with
        | none => none
        | some col =>
          match col.filterMap id with
          | [] => none
          | v :: _ => some (v * 100) }

/-! ### Batch fetch (`batch_fetch`, app.py lines 100-108) -/

/-- Outcome of the provider calls for one ticker: either the data needed by
`fetch_summary`, or a raised exception carrying a message. -/
inductive FetchOutcome where
  | success (info : Info) (analysis : Option AnalysisTbl)
  | failure (msg : PyStr)

/-- One row of the fetched table: either a full record, or the dict
`{"Ticker": t, "Error": str(e)}` produced by the except-branch. -/
inductive FetchRow where
  | ok (r : FundRec)
  | err (ticker : PyStr) (msg : PyStr)
deriving DecidableEq

/-- `batch_fetch`: fetch every ticker in order; a per-ticker exception is
caught and becomes an error row. -/
def batch_fetch (provider : PyStr → FetchOutcome) (tickers : List PyStr) :
    List FetchRow :=
  tickers.map (fun t =>
    match provider t with
    | .success info analysis => .ok (fetch_summary t info analysis)
    | .failure e => .err t e)

/-! ### DataFrame column reads

A key missing from a row's dict reads back as `NaN` in the pandas table, so
each column accessor is total with `none` for the missing cells. -/

def FetchRow.colTicker : FetchRow → PyStr
  | .ok r => r.ticker
  | .err t _ => t

def FetchRow.colName : FetchRow → Option PyStr
  | .ok r => some r.name
  | .err _ _ => none

def FetchRow.colPrice : FetchRow → Option ℚ
  | .ok r => r.price
  | .err _ _ => none

def FetchRow.colSector : FetchRow → Option PyStr
  | .ok r => some r.sector
  | .err _ _ => none

def FetchRow.colTrailingPE : FetchRow → Option ℚ
  | .ok r => r.trailingPE
  | .err _ _ => none

def FetchRow.colForwardPE : FetchRow → Option ℚ
  | .ok r => r.forwardPE
  | .err _ _ => none

def FetchRow.colDividend : FetchRow → Option ℚ
  | .ok r => some r.dividendPct
  | .err _ _ => none

def FetchRow.colAnalyst : FetchRow → Option ℚ
  | .ok r => r.analystGrowthPct
  | .err _ _ => none

def FetchRow.colErrMsg : FetchRow → Option PyStr
  | .ok _ => none
  | .err _ m => some m

/-! ### Screen configuration (sidebar inputs) -/

inductive PEType where
  | forward
  | trailing
deriving DecidableEq

inductive GrowthSource where
  | analystFallback
  | manualOnly
deriving DecidableEq

/-- The user configuration consumed by the run block. -/
structure ScreenConfig where
  peType : PEType
  growthSource : GrowthSource
  manualGrowth : ℚ
  minDivYield : ℚ
  maxPEGY : ℚ
deriving DecidableEq

/-! ### Derivation pipeline (app.py lines 117-135) -/

/-- `df["PE Used"] = df[pe_col]` (app.py line 118-119). -/
def peSel (cfg : ScreenConfig) (fr : FetchRow) : Option ℚ :=
  match cfg.peType with
  | .forward => fr.colForwardPE
  | .trailing => fr.colTrailingPE

/-- Growth selection (app.py lines 122-127): the analyst column with
`fillna(manual_growth)`, or the manual scalar broadcast; either way every
cell of `"Growth % Used"` is numeric afterwards. -/
def growthSel (cfg : ScreenConfig) (fr : FetchRow) : ℚ :=
  match cfg.growthSource with
  | .analystFallback => (fr.colAnalyst).getD cfg.manualGrowth
  | .manualOnly => cfg.manualGrowth

/-- `clip(lower=0.0)` on one numeric cell (app.py lines 130-131). -/
def clipLower0 (x : ℚ) : ℚ := max x 0

/-- PEGY of one row (app.py lines 134-135): the denominator is the already
clipped `Growth % Used + Dividend %`; an exact-zero denominator is replaced
by `NaN` before the division, and `NaN` propagates through `+` and `/`. -/
def pegyOf (pe : Option ℚ) (g : ℚ) (div : Option ℚ) : Option ℚ :=
  match pe, div with
  | some p, some d => if g + d = 0 then none else some (p / (g + d))
  | _, _ => none

/-- One row of the derived table: the underlying fetched row together with
the columns the run block adds or overwrites (`"Dividend %"` is overwritten
in place by the clip). -/
structure ScreenRow where
  base : FetchRow
  peUsed : Option ℚ
  growthUsed : ℚ
  dividendPct : Option ℚ
  pegy : Option ℚ
deriving DecidableEq

/-- The elementwise derivation steps of the run block on one row
(PE selection, growth selection, clamping, PEGY). -/
def deriveRow (cfg : ScreenConfig) (fr : FetchRow) : ScreenRow :=
  { base := fr
    peUsed := peSel cfg fr
    growthUsed := clipLower0 (growthSel cfg fr)
    dividendPct := (fr.colDividend).map clipLower0
    pegy := pegyOf (peSel cfg fr) (clipLower0 (growthSel cfg fr))
      ((fr.colDividend).map clipLower0) }

/-- The derived table `df` after app.py line 135. -/
def deriveTable (cfg : ScreenConfig) (table : List FetchRow) : List ScreenRow :=
  table.map (deriveRow cfg)

/-! ### Filtering (app.py lines 138-142) -/

/-- The boolean mask `filtered["Dividend %"] >= min_div_yield` on one row;
a `NaN` cell compares false. -/
def divGeB (r : ScreenRow) (m : ℚ) : Bool :=
  match r.dividendPct with
  | some d => decide (m ≤ d)
  | none => false

/-- The boolean mask `filtered["PEGY"] <= max_pegy` on one row; a `NaN`
cell compares false. -/
def pegyLeB (r : ScreenRow) (m : ℚ) : Bool :=
  match r.pegy with
  | some p => decide (p ≤ m)
  | none => false

/-- The two guarded mask filters of the run block, in order. -/
def applyFilters (cfg : ScreenConfig) (rows : List ScreenRow) : List ScreenRow :=
  let f1 := if 0 < cfg.minDivYield then rows.filter (fun r => divGeB r cfg.minDivYield)
    else rows
  if 0 < cfg.maxPEGY then f1.filter (fun r => pegyLeB r cfg.maxPEGY) else f1

/-! ### Ranking (app.py line 145)

`sort_values(by=["PEGY", "Ticker"], na_position="last", ascending=True)` is
a stable sort by the lexicographic key (PEGY with `NaN` greatest, Ticker).
-/

/-- Strict comparison of two `"PEGY"` cells with `NaN` sorted last. -/
def pegyKeyLt (a b : Option ℚ) : Prop :=
  match a, b with
  | some x, some y => x < y
  | some _, none => True
  | none, _ => False

instance : ∀ a b : Option ℚ, Decidable (pegyKeyLt a b) := fun a b =>
  match a, b with
  | some x, some y => inferInstanceAs (Decidable (x < y))
  | some _, none => inferInstanceAs (Decidable True)
  | none, some _ => inferInstanceAs (Decidable False)
  | none, none => inferInstanceAs (Decidable False)

/-- The sort key order of app.py line 145: ascending by PEGY with absent
values last, ties broken ascending by Ticker. -/
def rowLe (a b : ScreenRow) : Prop :=
  pegyKeyLt a.pegy b.pegy ∨
    (a.pegy = b.pegy ∧ strLe a.base.colTicker b.base.colTicker = true)

instance : DecidableRel rowLe := fun a b =>
  inferInstanceAs (Decidable (pegyKeyLt a.pegy b.pegy ∨
    (a.pegy = b.pegy ∧ strLe a.base.colTicker b.base.colTicker = true)))

/-- The ranking step: a stable sort by `rowLe`. -/
def sortRows (rows : List ScreenRow) : List ScreenRow :=
  rows.insertionSort rowLe

/-- The whole run-block pipeline from the fetched table to the ranked,
filtered table `filtered`. -/
def runPipeline (cfg : ScreenConfig) (table : List FetchRow) : List ScreenRow :=
  sortRows (applyFilters cfg (deriveTable cfg table))

/-! ### Presentation (app.py lines 149-153) -/

/-- Rounding of a numeric cell to 2 decimal places for display.  (pandas
rounds ties on binary floats to even; rounding of exact ties is not relied
on by any claim and is modelled with `round` on `ℚ`.) -/
def round2 (x : ℚ) : ℚ := (round (x * 100) : ℤ) / 100

/-- One row of the displayed table: the eight presentation columns, with
the numeric ones rounded. -/
structure PresRow where
  ticker : PyStr
  name : Option PyStr
  sector : Option PyStr
  price : Option ℚ
  peUsed : Option ℚ
  growthUsed : ℚ
  dividendPct : Option ℚ
  pegy : Option ℚ
deriving DecidableEq

/-- Column selection and rounding of app.py lines 150-151 on one row. -/
def presRow (r : ScreenRow) : PresRow :=
  { ticker := r.base.colTicker
    name := r.base.colName
    sector := r.base.colSector
    price := r.base.colPrice.map round2
    peUsed := r.peUsed.map round2
    growthUsed := round2 r.growthUsed
    dividendPct := r.dividendPct.map round2
    pegy := r.pegy.map round2 }

/-- The displayed table. -/
def presentTable (rows : List ScreenRow) : List PresRow :=
  rows.map presRow

/-- The presentation column order of app.py line 150. -/
def presColumns : List String :=
  ["Ticker", "Name", "Sector", "Price", "PE Used", "Growth % Used", "Dividend %", "PEGY"]

/-! ### CSV export (app.py line 156)

`filtered.to_csv(index=False)` serializes every column of the underlying
frame (not the eight presentation columns), in the frame's column order:
the union of the per-row dict keys in first-seen order, followed by the
three derived columns in assignment order.  A `NaN` cell serializes as an
empty field. -/

/-- The dict keys of one fetched row, in dict order. -/
def FetchRow.dictKeys : FetchRow → List String
  | .ok _ => ["Ticker", "Name", "Price", "Sector", "Trailing PE", "Forward PE",
      "Dividend %", "Analyst 5y Growth %"]
  | .err _ _ => ["Ticker", "Error"]

/-- pandas column order for a frame built from a list of dicts: keys in
first-seen order. -/
def dfColumns (table : List FetchRow) : List String :=
  table.foldl (fun acc r => acc ++ (r.dictKeys).filter (fun c => !acc.contains c)) []

/-- All columns of `filtered` at the point of the export: the fetched
columns followed by the derived columns in assignment order. -/
def exportColumns (table : List FetchRow) : List String :=
  dfColumns table ++ ["PE Used", "Growth % Used", "PEGY"]

/-- One CSV cell: a string cell, a numeric cell, or the empty field a `NaN`
serializes to. -/
inductive Cell where
  | str (v : PyStr)
  | num (v : ℚ)
  | blank
deriving DecidableEq

/-- An optional numeric cell. -/
def optNumCell : Option ℚ → Cell
  | some v => .num v
  | none => .blank

/-- An optional string cell. -/
def optStrCell : Option PyStr → Cell
  | some v => .str v
  | none => .blank

/-- The cell of a derived row under a given column label. -/
def cellOf (r : ScreenRow) (c : String) : Cell :=
  if c = "Ticker" then .str r.base.colTicker
  else if c = "Name" then optStrCell r.base.colName
  else if c = "Price" then optNumCell r.base.colPrice
  else if c = "Sector" then optStrCell r.base.colSector
  else if c = "Trailing PE" then optNumCell r.base.colTrailingPE
  else if c = "Forward PE" then optNumCell r.base.colForwardPE
  else if c = "Dividend %" then optNumCell r.dividendPct
  else if c = "Analyst 5y Growth %" then optNumCell r.base.colAnalyst
  else if c = "Error" then optStrCell r.base.colErrMsg
  else if c = "PE Used" then optNumCell r.peUsed
  else if c = "Growth % Used" then .num r.growthUsed
  else if c = "PEGY" then optNumCell r.pegy
  else .blank

/-- The serialized CSV: a header row and one cell row per surviving row of
the filtered table, with no index column. -/
structure CsvTable where
  header : List String
  rows : List (List Cell)
deriving DecidableEq

/-- `filtered.to_csv(index=False)` over the modelled table. -/
def exportCsv (table : List FetchRow) (filtered : List ScreenRow) : CsvTable :=
  { header := exportColumns table
    rows := filtered.map (fun r => (exportColumns table).map (cellOf r)) }

/-! ### Order lemmas for the ranking key -/

theorem strLt_irrefl (a : PyStr) : strLt a a = false := by
  induction a with
  | nil => rfl
  | cons x as ih => simp [strLt, ih]

theorem strLt_trans : ∀ {a b c : PyStr},
    strLt a b = true → strLt b c = true → strLt a c = true := by
  intro a
  induction a with
  | nil =>
    intro b c h1 h2
    cases b with
    | nil => simp [strLt] at h1
    | cons y bs =>
      cases c with
      | nil => simp [strLt] at h2
      | cons z cs => simp [strLt]
  | cons x as ih =>
    intro b c h1 h2
    cases b with
    | nil => simp [strLt] at h1
    | cons y bs =>
      cases c with
      | nil => simp [strLt] at h2
      | cons z cs =>
        simp only [strLt] at h1 h2 ⊢
        by_cases hxy : x < y
        · by_cases hyz : y < z
          · rw [if_pos (lt_trans hxy hyz)]
          · rw [if_neg hyz] at h2
            by_cases hzy : z < y
            · rw [if_pos hzy] at h2
              exact absurd h2 (by simp)
            · have hyz2 : y = z := le_antisymm (le_of_not_lt hzy) (le_of_not_lt hyz)
              subst hyz2
              rw [if_pos hxy]
        · rw [if_neg hxy] at h1
          by_cases hyx : y < x
          · rw [if_pos hyx] at h1
            exact absurd h1 (by simp)
          · rw [if_neg hyx] at h1
            have hxy2 : x = y := le_antisymm (le_of_not_lt hyx) (le_of_not_lt hxy)
            subst hxy2
            by_cases hxz : x < z
            · rw [if_pos hxz]
            · rw [if_neg hxz] at h2 ⊢
              by_cases hzx : z < x
              · rw [if_pos hzx] at h2
                exact absurd h2 (by simp)
              · rw [if_neg hzx] at h2 ⊢
                exact ih h1 h2

theorem strLt_antisymm : ∀ {a b : PyStr},
    strLt a b = false → strLt b a = false → a = b := by
  intro a
  induction a with
  | nil =>
    intro b h1 h2
    cases b with
    | nil => rfl
    | cons y bs => simp [strLt] at h1
  | cons x as ih =>
    intro b h1 h2
    cases b with
    | nil => simp [strLt] at h2
    | cons y bs =>
      simp only [strLt] at h1 h2
      by_cases hxy : x < y
      · rw [if_pos hxy] at h1
        exact absurd h1 (by simp)
      · by_cases hyx : y < x
        · rw [if_pos hyx] at h2
          exact absurd h2 (by simp)
        · rw [if_neg hxy, if_neg hyx] at h1
          rw [if_neg hyx, if_neg hxy] at h2
          have hxy2 : x = y := le_antisymm (le_of_not_lt hyx) (le_of_not_lt hxy)
          rw [hxy2, ih h1 h2]

theorem strLe_total (a b : PyStr) : strLe a b = true ∨ strLe b a = true := by
  by_cases h1 : strLt b a = true
  · right
    unfold strLe
    by_cases h2 : strLt a b = true
    · exact absurd (strLt_trans h1 h2) (by simp [strLt_irrefl])
    · simp [Bool.not_eq_true] at h2
      simp [h2]
  · left
    simp [Bool.not_eq_true] at h1
    simp [strLe, h1]

theorem strLe_trans {a b c : PyStr} (h1 : strLe a b = true) (h2 : strLe b c = true) :
    strLe a c = true := by
  unfold strLe at h1 h2 ⊢
  simp only [Bool.not_eq_true'] at h1 h2 ⊢
  by_cases hca : strLt c a = true
  · by_cases hab : strLt a b = true
    · exact absurd (strLt_trans hca hab) (by simp [h2])
    · simp [Bool.not_eq_true] at hab
      have hab2 : a = b := strLt_antisymm hab h1
      subst hab2
      exact absurd hca (by simp [h2])
  · simp [Bool.not_eq_true] at hca
    exact hca

/-! ### The ranking key order is total and transitive -/

theorem pegyKeyLt_trans {a b c : Option ℚ} (h1 : pegyKeyLt a b) (h2 : pegyKeyLt b c) :
    pegyKeyLt a c := by
  cases a <;> cases b <;> cases c <;> simp_all [pegyKeyLt]
  exact lt_trans h1 h2

instance : IsTrans ScreenRow rowLe := by
  constructor
  intro a b c hab hbc
  rcases hab with h1 | ⟨he1, hs1⟩
  · rcases hbc with h2 | ⟨he2, hs2⟩
    · exact Or.inl (pegyKeyLt_trans h1 h2)
    · exact Or.inl (he2 ▸ h1)
  · rcases hbc with h2 | ⟨he2, hs2⟩
    · exact Or.inl (he1 ▸ h2)
    · exact Or.inr ⟨he1.trans he2, strLe_trans hs1 hs2⟩

instance : IsTotal ScreenRow rowLe := by
  constructor
  intro a b
  rcases ha : a.pegy with _ | x <;> rcases hb : b.pegy with _ | y
  · rcases strLe_total a.base.colTicker b.base.colTicker with h | h
    · exact Or.inl (Or.inr ⟨ha.trans hb.symm, h⟩)
    · exact Or.inr (Or.inr ⟨hb.trans ha.symm, h⟩)
  · exact Or.inr (Or.inl (by simp [pegyKeyLt, ha, hb]))
  · exact Or.inl (Or.inl (by simp [pegyKeyLt, ha, hb]))
  · rcases lt_trichotomy x y with h | h | h
    · exact Or.inl (Or.inl (by simp [pegyKeyLt, ha, hb, h]))
    · subst h
      rcases strLe_total a.base.colTicker b.base.colTicker with hs | hs
      · exact Or.inl (Or.inr ⟨ha.trans hb.symm, hs⟩)
      · exact Or.inr (Or.inr ⟨hb.trans ha.symm, hs⟩)
    · exact Or.inr (Or.inl (by simp [pegyKeyLt, ha, hb, h]))

/-! ### Sort and filter helper lemmas -/

theorem sortRows_perm (rows : List ScreenRow) : List.Perm (sortRows rows) rows :=
  List.perm_insertionSort rowLe rows

theorem sortRows_sorted (rows : List ScreenRow) : (sortRows rows).Sorted rowLe :=
  List.sorted_insertionSort rowLe rows

theorem sortRows_none_last (rows : List ScreenRow) :
    (sortRows rows).Pairwise (fun a b => a.pegy = none → b.pegy = none) := by
  refine (sortRows_sorted rows).imp ?_
  intro a b hab ha
  rcases hab with h | ⟨he, _⟩
  · rw [ha] at h
    cases hb : b.pegy with
    | none => rfl
    | some y => rw [hb] at h; exact absurd h (by simp [pegyKeyLt])
  · exact ha ▸ he.symm

theorem applyFilters_sublist (cfg : ScreenConfig) (rows : List ScreenRow) :
    List.Sublist (applyFilters cfg rows) rows := by
  unfold applyFilters
  split_ifs with h1 h2 h3
  · exact (List.filter_sublist _).trans (List.filter_sublist _)
  · exact List.filter_sublist _
  · exact List.filter_sublist _
  · exact List.Sublist.refl _

theorem mem_applyFilters {cfg : ScreenConfig} {rows : List ScreenRow} {r : ScreenRow}
    (h : r ∈ applyFilters cfg rows) : r ∈ rows :=
  (applyFilters_sublist cfg rows).subset h

theorem mem_runPipeline {cfg : ScreenConfig} {table : List FetchRow} {r : ScreenRow}
    (h : r ∈ runPipeline cfg table) : r ∈ deriveTable cfg table :=
  mem_applyFilters ((sortRows_perm _).subset h)

/-! ### Concrete fixtures used by witnesses and counterexamples -/

/-- A fully populated provider bag. -/
def infoW : Info :=
  { trailingPE := some 30
    forwardPE := some 20
    dividendYield := some 2
    shortName := some "Alpha".data
    longName := none
    currentPrice := some 100
    regularMarketPrice := some 99
    sector := some "Tech".data }

/-- A provider bag whose current price is (truthily) zero. -/
def infoZeroPrice : Info :=
  { trailingPE := none
    forwardPE := none
    dividendYield := none
    shortName := none
    longName := none
    currentPrice := some 0
    regularMarketPrice := some 7
    sector := none }

/-- A provider that succeeds on every ticker. -/
def providerOk : PyStr → FetchOutcome := fun _ => .success infoW none

/-- A provider that raises exactly on ticker `"B"`. -/
def providerFail2 : PyStr → FetchOutcome := fun t =>
  if t = "B".data then .failure "boom".data else .success infoW none

/-- A fetched record with simple integral fundamentals. -/
def recW : FundRec :=
  { ticker := "AAA".data
    name := "Alpha".data
    price := some 100
    sector := "Tech".data
    trailingPE := some 30
    forwardPE := some 20
    dividendPct := 2
    analystGrowthPct := some 5 }

/-- Forward PE, manual growth 10, both filters disabled. -/
def cfgZero : ScreenConfig :=
  { peType := .forward
    growthSource := .manualOnly
    manualGrowth := 10
    minDivYield := 0
    maxPEGY := 0 }

/-- Analyst growth with manual fallback 10, both filters active. -/
def cfgDemo : ScreenConfig :=
  { peType := .forward
    growthSource := .analystFallback
    manualGrowth := 10
    minDivYield := 1
    maxPEGY := 2 }

/-- Manual-only negative growth (an out-of-widget edge case), filters off. -/
def cfgNeg : ScreenConfig :=
  { peType := .trailing
    growthSource := .manualOnly
    manualGrowth := -5
    minDivYield := 0
    maxPEGY := 0 }

/-- No dividend filter, PEGY filter at 1. -/
def cfgMax1 : ScreenConfig :=
  { peType := .forward
    growthSource := .manualOnly
    manualGrowth := 10
    minDivYield := 0
    maxPEGY := 1 }

/-- A fetched row with a negative provider dividend. -/
def frNeg : FetchRow :=
  .ok
    { ticker := "NEG".data
      name := "Neg".data
      price := some 50
      sector := []
      trailingPE := some 10
      forwardPE := some 8
      dividendPct := -3
      analystGrowthPct := none }

/-- A one-ticker fetched table with every fetch succeeding. -/
def tbl1 : List FetchRow := batch_fetch providerOk ["AAA".data]

/-- Rows for the ranking example: only the PEGY and Ticker cells matter to
the sort, the remaining fields are inert. -/
def exRowZ : ScreenRow :=
  { base := .err "Z".data [], peUsed := none, growthUsed := 0, dividendPct := none
    pegy := some (3 / 2) }

def exRowB : ScreenRow :=
  { base := .err "B".data [], peUsed := none, growthUsed := 0, dividendPct := none
    pegy := some (9 / 10) }

def exRowC : ScreenRow :=
  { base := .err "C".data [], peUsed := none, growthUsed := 0, dividendPct := none
    pegy := none }

def exRowA : ScreenRow :=
  { base := .err "A".data [], peUsed := none, growthUsed := 0, dividendPct := none
    pegy := some (9 / 10) }

/-! ### Claim C1 (ticker parser) -/

/-- C1 (amended): `parse_tickers` is order-preserving (its output is a
sublist of the stream of stripped, upper-cased tokens) and contains no
empty token; duplicates are NOT removed. -/
theorem parse_tickers_shape (txt : PyStr) :
    List.Sublist (parse_tickers txt)
      ((splitComma (pyReplaceNlComma txt)).map (fun x => pyUpper (pyStrip x))) ∧
    ∀ s ∈ parse_tickers txt, s ≠ [] := by
  constructor
  · exact List.filter_sublist _
  · intro s hs
    have h := List.of_mem_filter hs
    simpa using h

/-- Witness for C1's theorem at the spec's own example input. -/
theorem parse_tickers_shape_witness :
    "AAPL".data ∈ parse_tickers "aapl, msft\nko".data ∧ "AAPL".data ≠ [] :=
  ⟨by decide, (parse_tickers_shape "aapl, msft\nko".data).2 "AAPL".data (by decide)⟩

/-- C1 counterexample: the parser does not deduplicate — the input
`"A,A"` yields the symbol `"A"` twice. -/
theorem parse_tickers_dedup_cex :
    parse_tickers "A,A".data = ["A".data, "A".data] ∧
    ¬ (parse_tickers "A,A".data).Nodup := by
  constructor
  · decide
  · decide

/-! ### Claim C5 (price selection) -/

/-- C5 (amended): the fetched price is the current price when it is present
and nonzero; it falls back to the regular market price when that is present
and nonzero; it is absent when both are missing or (Python-falsy) zero. -/
theorem price_selection (t : PyStr) (info : Info) (a : Option AnalysisTbl) :
    (∀ x, info.currentPrice = some x → x ≠ 0 →
      (fetch_summary t info a).price = some x) ∧
    ((info.currentPrice = none ∨ info.currentPrice = some 0) →
      ∀ y, info.regularMarketPrice = some y → y ≠ 0 →
        (fetch_summary t info a).price = some y) ∧
    ((info.currentPrice = none ∨ info.currentPrice = some 0) →
      (info.regularMarketPrice = none ∨ info.regularMarketPrice = some 0) →
      (fetch_summary t info a).price = none) := by
  refine ⟨?_, ?_, ?_⟩
  · intro x hx hx0
    simp [fetch_summary, pyOrQ, hx, hx0]
  · rintro (hc | hc) y hy hy0 <;> simp [fetch_summary, pyOrQ, hc, hy, hy0]
  · rintro (hc | hc) (hr | hr) <;> simp [fetch_summary, pyOrQ, hc, hr]

/-- Witness for C5's theorem: a nonzero current price is used as-is. -/
theorem price_selection_witness :
    (fetch_summary "AAA".data infoW none).price = some 100 :=
  (price_selection "AAA".data infoW none).1 100 rfl (by norm_num)

/-- C5 counterexample: a present current price of value `0` is skipped by
the Python `or` chain, so the claim's "a present current price of value 0
is used, not skipped" is false. -/
theorem price_zero_cex :
    (fetch_summary "X".data infoZeroPrice none).price = some 7 ∧
    (fetch_summary "X".data infoZeroPrice none).price ≠ some 0 := by
  constructor <;> norm_num [fetch_summary, infoZeroPrice, pyOrQ]

/-! ### Claim C8 (batch fetch isolation and ordering) -/

/-- C8: the batch returns one row per input ticker in input order; a ticker
whose fetch raises becomes a row carrying only the ticker and the error
message, and every other ticker is still fetched normally. -/
theorem batch_fetch_spec (p : PyStr → FetchOutcome) (ts : List PyStr) :
    (batch_fetch p ts).length = ts.length ∧
    (∀ (i : ℕ) (t e : PyStr), ts[i]? = some t → p t = .failure e →
      (batch_fetch p ts)[i]? = some (FetchRow.err t e)) ∧
    (∀ (i : ℕ) (t : PyStr) (info : Info) (a : Option AnalysisTbl),
      ts[i]? = some t → p t = .success info a →
      (batch_fetch p ts)[i]? = some (FetchRow.ok (fetch_summary t info a))) := by
  refine ⟨List.length_map .., ?_, ?_⟩
  · intro i t e ht hp
    rw [batch_fetch, List.getElem?_map, ht]
    simp [hp]
  · intro i t info a ht hp
    rw [batch_fetch, List.getElem?_map, ht]
    simp [hp]

/-- Witness for C8's theorem: a batch of three tickers whose provider
raises for the second yields three rows, with the middle row an error row
and the others full records. -/
theorem batch_fetch_spec_witness :
    (batch_fetch providerFail2 ["A".data, "B".data, "C".data]).length = 3 ∧
    (batch_fetch providerFail2 ["A".data, "B".data, "C".data])[1]? =
      some (FetchRow.err "B".data "boom".data) ∧
    (batch_fetch providerFail2 ["A".data, "B".data, "C".data])[0]? =
      some (FetchRow.ok (fetch_summary "A".data infoW none)) := by
  refine ⟨?_, ?_, ?_⟩
  · exact (batch_fetch_spec providerFail2 ["A".data, "B".data, "C".data]).1.trans rfl
  · exact (batch_fetch_spec providerFail2 ["A".data, "B".data, "C".data]).2.1 1
      "B".data "boom".data rfl (by rw [providerFail2, if_pos rfl])
  · exact (batch_fetch_spec providerFail2 ["A".data, "B".data, "C".data]).2.2 0
      "A".data infoW none rfl (by rw [providerFail2, if_neg (by decide)])

/-! ### Claim C4 (PEGY derivation guard) -/

/-- C4: in every derived row, PEGY is absent exactly when the selected P/E
is absent or the clamped denominator `GrowthUsed + DividendPct` is exactly
zero; otherwise PEGY is the quotient.  The derivation is a total function:
it cannot throw and the zero denominator is replaced by an absent value
before the division. -/
theorem pegy_guard (cfg : ScreenConfig) (fr : FetchRow) :
    ((deriveRow cfg fr).pegy = none ↔
      (deriveRow cfg fr).peUsed = none ∨
        ((deriveRow cfg fr).dividendPct).map
          (fun d => (deriveRow cfg fr).growthUsed + d) = some 0) ∧
    ∀ p d, (deriveRow cfg fr).peUsed = some p →
      (deriveRow cfg fr).dividendPct = some d →
      (deriveRow cfg fr).growthUsed + d ≠ 0 →
      (deriveRow cfg fr).pegy = some (p / ((deriveRow cfg fr).growthUsed + d)) := by
  constructor
  · cases fr with
    | err t m =>
      have hpe : peSel cfg (.err t m) = none := by
        cases hp : cfg.peType <;>
          simp [peSel, hp, FetchRow.colForwardPE, FetchRow.colTrailingPE]
      simp [deriveRow, hpe, pegyOf, FetchRow.colDividend]
    | ok r =>
      cases hpe : peSel cfg (.ok r) with
      | none => simp [deriveRow, hpe, pegyOf, FetchRow.colDividend]
      | some p =>
        simp only [deriveRow, hpe, FetchRow.colDividend, Option.map_some', pegyOf]
        split_ifs with h <;> simp [h]
  · intro p d hp hd hne
    simp only [deriveRow] at hp hd hne ⊢
    rw [hp, hd]
    simp [pegyOf, hne]

/-- Witness for C4's theorem: forward P/E 20, manual growth 10, dividend 2
give PEGY `20 / 12`. -/
theorem pegy_guard_witness :
    (deriveRow cfgZero (.ok recW)).pegy =
      some (20 / ((deriveRow cfgZero (.ok recW)).growthUsed + 2)) :=
  (pegy_guard cfgZero (.ok recW)).2 20 2 rfl
    (by simp [deriveRow, FetchRow.colDividend, recW, clipLower0,
      max_eq_left (by norm_num : (0:ℚ) ≤ 2)])
    (by simp [deriveRow, growthSel, cfgZero, clipLower0,
      max_eq_left (by norm_num : (0:ℚ) ≤ 10)]; norm_num)

/-! ### Claim C9 (clamping invariant) -/

/-- C9: in every row the pipeline outputs, the (overwritten) dividend
column is nonnegative whenever present, the growth column is nonnegative,
and PEGY is derived from exactly these clamped operands. -/
theorem clamp_invariant (cfg : ScreenConfig) (table : List FetchRow) :
    ∀ r ∈ runPipeline cfg table,
      (∀ d, r.dividendPct = some d → 0 ≤ d) ∧ 0 ≤ r.growthUsed ∧
      r.pegy = pegyOf r.peUsed r.growthUsed r.dividendPct := by
  intro r hr
  obtain ⟨fr, hfr, rfl⟩ := List.mem_map.mp (mem_runPipeline hr)
  refine ⟨?_, le_max_right (growthSel cfg fr) 0, rfl⟩
  intro d hd
  simp only [deriveRow] at hd
  cases h : fr.colDividend with
  | none => rw [h] at hd; simp at hd
  | some x =>
    rw [h] at hd
    simp only [Option.map_some', Option.some.injEq] at hd
    subst hd
    exact le_max_right x 0

/-- Witness for C9's theorem: a negative provider dividend and a negative
manual growth are both clamped to `0` in the surviving row. -/
theorem clamp_invariant_witness :
    0 ≤ (deriveRow cfgNeg frNeg).growthUsed :=
  (clamp_invariant cfgNeg [frNeg] (deriveRow cfgNeg frNeg)
    (by simp [runPipeline, deriveTable, applyFilters, sortRows, cfgNeg,
      List.insertionSort, List.orderedInsert])).2.1

/-! ### Claim C2 (error rows in the pipeline) -/

/-- C2 (amended): a derived error row has absent P/E, dividend and PEGY
cells, but its `"Growth % Used"` cell is the (numeric, clamped) manual
growth — `fillna` and the manual branch fill error rows too.  The row is
excluded by any active filter and absent-PEGY rows sort after every
present-PEGY row. -/
theorem error_row_isolation (cfg : ScreenConfig) (t msg : PyStr) :
    (deriveRow cfg (.err t msg)).peUsed = none ∧
    (deriveRow cfg (.err t msg)).dividendPct = none ∧
    (deriveRow cfg (.err t msg)).pegy = none ∧
    (deriveRow cfg (.err t msg)).growthUsed = clipLower0 cfg.manualGrowth ∧
    ((0 < cfg.minDivYield ∨ 0 < cfg.maxPEGY) →
      ∀ rows : List ScreenRow, deriveRow cfg (.err t msg) ∉ applyFilters cfg rows) ∧
    ∀ rows : List ScreenRow,
      (sortRows rows).Pairwise (fun a b => a.pegy = none → b.pegy = none) := by
  have hpe : (deriveRow cfg (.err t msg)).peUsed = none := by
    cases hp : cfg.peType <;>
      simp [deriveRow, peSel, hp, FetchRow.colForwardPE, FetchRow.colTrailingPE]
  have hdv : (deriveRow cfg (.err t msg)).dividendPct = none := by
    simp [deriveRow, FetchRow.colDividend]
  have hpg : (deriveRow cfg (.err t msg)).pegy = none := by
    cases hp : peSel cfg (.err t msg) <;>
      simp [deriveRow, pegyOf, hp, FetchRow.colDividend]
  have hgu : (deriveRow cfg (.err t msg)).growthUsed = clipLower0 cfg.manualGrowth := by
    cases hg : cfg.growthSource <;>
      simp [deriveRow, growthSel, hg, FetchRow.colAnalyst]
  refine ⟨hpe, hdv, hpg, hgu, ?_, fun rows => sortRows_none_last rows⟩
  rintro (h | h) rows hil
  · simp only [applyFilters] at hil
    by_cases h2 : 0 < cfg.maxPEGY
    · rw [if_pos h2, if_pos h] at hil
      have := (List.mem_filter.mp (List.mem_of_mem_filter hil)).2
      simp [divGeB, hdv] at this
    · rw [if_neg h2, if_pos h] at hil
      have := (List.mem_filter.mp hil).2
      simp [divGeB, hdv] at this
  · simp only [applyFilters] at hil
    rw [if_pos h] at hil
    have := (List.mem_filter.mp hil).2
    simp [pegyLeB, hpg] at this

/-- Witness for C2's theorem: with the dividend filter active, an error row
is dropped by the filter step. -/
theorem error_row_isolation_witness :
    deriveRow cfgDemo (.err "BAD".data "boom".data) ∉
      applyFilters cfgDemo [deriveRow cfgDemo (.err "BAD".data "boom".data)] :=
  (error_row_isolation cfgDemo "BAD".data "boom".data).2.2.2.2.1
    (Or.inl (by norm_num [cfgDemo]))
    [deriveRow cfgDemo (.err "BAD".data "boom".data)]

/-- C2 counterexample: an error row does NOT pass through with no numeric
fields — under the analyst-with-fallback configuration its
`"Growth % Used"` cell is the numeric manual growth (here `10`), because
`fillna(manual_growth)` also fills the error row's `NaN`. -/
theorem error_row_growth_cex :
    (deriveRow cfgDemo (.err "BAD".data "boom".data)).growthUsed = 10 := by
  simp [deriveRow, growthSel, cfgDemo, FetchRow.colAnalyst, clipLower0,
    max_eq_left (by norm_num : (0:ℚ) ≤ 10)]

/-! ### Claim C6 (filter step) -/

/-- C6: with nonnegative thresholds, the two guarded filters keep exactly
the rows passing `Dividend % >= min` (trivially true when `min = 0`, the
filter being skipped) and `PEGY <= max` (trivially true when `max = 0`);
and any active PEGY filter excludes every absent-PEGY row. -/
theorem filter_spec (cfg : ScreenConfig) (rows : List ScreenRow)
    (hmin : 0 ≤ cfg.minDivYield) (hmax : 0 ≤ cfg.maxPEGY) :
    applyFilters cfg rows = rows.filter (fun r =>
      (decide (cfg.minDivYield = 0) || divGeB r cfg.minDivYield) &&
      (decide (cfg.maxPEGY = 0) || pegyLeB r cfg.maxPEGY)) ∧
    (0 < cfg.maxPEGY → ∀ r ∈ applyFilters cfg rows, r.pegy ≠ none) := by
  constructor
  · rcases eq_or_lt_of_le hmin with h1 | h1 <;> rcases eq_or_lt_of_le hmax with h2 | h2
    · have e1 : decide (cfg.minDivYield = 0) = true := decide_eq_true h1.symm
      have e2 : decide (cfg.maxPEGY = 0) = true := decide_eq_true h2.symm
      simp [applyFilters, not_lt.mpr h1.ge, not_lt.mpr h2.ge, e1, e2]
    · have e1 : decide (cfg.minDivYield = 0) = true := decide_eq_true h1.symm
      have e2 : decide (cfg.maxPEGY = 0) = false := decide_eq_false h2.ne'
      simp [applyFilters, not_lt.mpr h1.ge, h2, e1, e2]
    · have e1 : decide (cfg.minDivYield = 0) = false := decide_eq_false h1.ne'
      have e2 : decide (cfg.maxPEGY = 0) = true := decide_eq_true h2.symm
      simp [applyFilters, h1, not_lt.mpr h2.ge, e1, e2]
    · have e1 : decide (cfg.minDivYield = 0) = false := decide_eq_false h1.ne'
      have e2 : decide (cfg.maxPEGY = 0) = false := decide_eq_false h2.ne'
      simp [applyFilters, h1, h2, e1, e2, List.filter_filter]
      exact List.filter_congr fun a _ => Bool.and_comm _ _
  · intro hm r hr
    simp only [applyFilters, if_pos hm] at hr
    have hmask := (List.mem_filter.mp hr).2
    cases hp : r.pegy with
    | none => simp [pegyLeB, hp] at hmask
    | some x => simp [hp]

/-- Rows for the filter example of the spec: PEGY `0.8`, `1.2` and absent. -/
def rF1 : ScreenRow :=
  { base := .err "T1".data [], peUsed := none, growthUsed := 0, dividendPct := none
    pegy := some (4 / 5) }

def rF2 : ScreenRow :=
  { base := .err "T2".data [], peUsed := none, growthUsed := 0, dividendPct := none
    pegy := some (6 / 5) }

def rF3 : ScreenRow :=
  { base := .err "T3".data [], peUsed := none, growthUsed := 0, dividendPct := none
    pegy := none }

/-- Witness for C6's theorem at the spec's filter example (`maxPEGY = 1`,
dividend filter off). -/
theorem filter_spec_witness :
    applyFilters cfgMax1 [rF1, rF2, rF3] = [rF1, rF2, rF3].filter (fun r =>
      (decide (cfgMax1.minDivYield = 0) || divGeB r cfgMax1.minDivYield) &&
      (decide (cfgMax1.maxPEGY = 0) || pegyLeB r cfgMax1.maxPEGY)) :=
  (filter_spec cfgMax1 [rF1, rF2, rF3] (by norm_num [cfgMax1]) (by norm_num [cfgMax1])).1

/-! ### Claim C7 (ranking step) -/

/-- C7: the ranking step is a permutation of the filtered rows, sorted by
the (PEGY, Ticker) key with every absent-PEGY row after every present-PEGY
row; on the spec's concrete example it produces exactly the stated order. -/
theorem ranking_spec :
    (∀ rows : List ScreenRow, List.Perm (sortRows rows) rows ∧
      (sortRows rows).Sorted rowLe ∧
      (sortRows rows).Pairwise (fun a b => a.pegy = none → b.pegy = none)) ∧
    sortRows [exRowZ, exRowB, exRowC, exRowA] = [exRowA, exRowB, exRowZ, exRowC] := by
  constructor
  · exact fun rows => ⟨sortRows_perm rows, sortRows_sorted rows, sortRows_none_last rows⟩
  · have hBA : strLe "B".data "A".data = false := by decide
    simp only [sortRows, List.insertionSort, List.orderedInsert]
    norm_num [rowLe, pegyKeyLt, exRowZ, exRowB, exRowC, exRowA, FetchRow.colTicker, hBA]

/-- Witness for C7's theorem on a two-row list. -/
theorem ranking_spec_witness :
    List.Perm (sortRows [exRowC, exRowA]) [exRowC, exRowA] :=
  (ranking_spec.1 [exRowC, exRowA]).1

/-! ### Claim C3 (CSV export) -/

/-- C3 (amended): the CSV export serializes the ranked/filtered table with
a header row, one row per surviving ticker and no index column, but its
columns are ALL columns of the underlying frame (the fetched columns in
dict order — `Price` before `Sector` — plus `Error` when any row errored,
then the derived columns), not the eight presentation columns, and its
values are the unrounded cell values. -/
theorem export_csv_shape (table : List FetchRow) (filtered : List ScreenRow) :
    (exportCsv table filtered).header =
      dfColumns table ++ ["PE Used", "Growth % Used", "PEGY"] ∧
    (exportCsv table filtered).rows.length = filtered.length ∧
    ∀ row ∈ (exportCsv table filtered).rows,
      row.length = (exportCsv table filtered).header.length := by
  refine ⟨rfl, by simp [exportCsv], ?_⟩
  intro row hrow
  obtain ⟨r, hmem, rfl⟩ := List.mem_map.mp hrow
  simp [exportCsv]

/-- A derived error row used in the export witness. -/
def rS : ScreenRow := deriveRow cfgZero (.err "S".data "m".data)

/-- Witness for C3's theorem: a one-row export, every row as wide as the
header. -/
theorem export_csv_shape_witness :
    ((exportColumns tbl1).map (cellOf rS)).length = (exportCsv tbl1 [rS]).header.length :=
  (export_csv_shape tbl1 [rS]).2.2 ((exportColumns tbl1).map (cellOf rS))
    (List.mem_singleton_self _)

/-- C3 counterexample: on a successfully fetched one-ticker table the CSV
header is the eleven-column frame header (with `Price` before `Sector` and
the raw provider columns included), not the eight presentation columns. -/
theorem export_columns_cex :
    (exportCsv tbl1 (runPipeline cfgZero tbl1)).header ≠ presColumns ∧
    (exportCsv tbl1 (runPipeline cfgZero tbl1)).header =
      ["Ticker", "Name", "Price", "Sector", "Trailing PE", "Forward PE", "Dividend %",
        "Analyst 5y Growth %", "PE Used", "Growth % Used", "PEGY"] := by
  constructor
  · decide
  · decide

/-! ### Claim C10 (filter and sort only select and reorder) -/

/-- C10 (amended): filtering and ranking only select and reorder rows —
the pipeline output is a permutation of a sublist of the derived table, so
every output row is a derived row with every field unchanged; the
presented table is the per-row column selection/rounding map over exactly
those rows (rounding changes displayed numeric values, see the
counterexample). -/
theorem frame_preservation (cfg : ScreenConfig) (table : List FetchRow) :
    List.Perm (runPipeline cfg table) (applyFilters cfg (deriveTable cfg table)) ∧
    List.Sublist (applyFilters cfg (deriveTable cfg table)) (deriveTable cfg table) ∧
    (∀ r ∈ runPipeline cfg table, r ∈ deriveTable cfg table) ∧
    presentTable (runPipeline cfg table) = (runPipeline cfg table).map presRow :=
  ⟨sortRows_perm _, applyFilters_sublist _ _, fun _ hr => mem_runPipeline hr, rfl⟩

/-- Witness for C10's theorem: the surviving row is an unchanged element of
the derived table. -/
theorem frame_preservation_witness :
    deriveRow cfgNeg frNeg ∈ deriveTable cfgNeg [frNeg] :=
  (frame_preservation cfgNeg [frNeg]).2.2.1 (deriveRow cfgNeg frNeg)
    (by simp [runPipeline, deriveTable, applyFilters, sortRows, cfgNeg,
      List.insertionSort, List.orderedInsert])

/-- A provider bag whose current price is `1/3`, to expose display
rounding. -/
def infoThird : Info :=
  { trailingPE := some 10
    forwardPE := some 12
    dividendYield := none
    shortName := some "Third".data
    longName := none
    currentPrice := some (1 / 3)
    regularMarketPrice := none
    sector := some "X".data }

def providerThird : PyStr → FetchOutcome := fun _ => .success infoThird none

def tblP : List FetchRow := batch_fetch providerThird ["PPP".data]

/-- C10 counterexample: the presented table is NOT the pipeline rows with
all field values unchanged — the displayed price is rounded to `0.33`
while the pipeline row's price is `1/3`. -/
theorem present_rounding_cex :
    (presentTable (runPipeline cfgZero tblP)).map (fun r => r.price) =
      [some (33 / 100)] ∧
    (runPipeline cfgZero tblP).map (fun r => r.base.colPrice) = [some (1 / 3)] := by
  have hpipe : runPipeline cfgZero tblP =
      [deriveRow cfgZero (.ok (fetch_summary "PPP".data infoThird none))] := by
    simp [runPipeline, deriveTable, applyFilters, sortRows, cfgZero, tblP, batch_fetch,
      providerThird, List.insertionSort, List.orderedInsert]
  have hprice : (fetch_summary "PPP".data infoThird none).price = some (1 / 3) := by
    norm_num [fetch_summary, infoThird, pyOrQ]
  constructor
  · rw [hpipe]
    simp only [presentTable, List.map_cons, List.map_nil, presRow, deriveRow,
      FetchRow.colPrice, hprice]
    norm_num [round2, round_eq]
  · rw [hpipe]
    simp [deriveRow, FetchRow.colPrice, hprice]

end PegyApp
